/-
Verification of the votebot inline-poll bot (src/bot.py) against its
natural-language specification.

The development shallowly embeds the program's state and operations:

* `sha256hex` models Python's `hashlib.sha256(...).hexdigest()` as used by
  `hash` in src/bot.py:32-35 (full 64-hex-character digest of the UTF-8
  bytes of the input string); call sites truncate with `[:32]`.
* the rendering functions `generate_line`, `generate_message`,
  `generate_button`, `generate_buttons` (src/bot.py:64-94); Python's
  binary64 float arithmetic is modelled exactly: `fl64` is IEEE
  round-to-nearest-ties-to-even onto the double grid (with gradual
  underflow; values `≥ 2^1024` standing for infinity), and `round` /
  `"{:.0%}"` are the correct ties-to-even roundings of the double's exact
  value.  Division by zero is modelled by an `Option` result
  (`none` = `ZeroDivisionError`).
* `deduplicate` (src/bot.py:172-175).
* `shlexSplit` models Python's `shlex.split` (POSIX mode, whitespace_split,
  no comment characters), `none` modelling the `ValueError` raised on an
  unbalanced quote or a trailing escape character.
* the store (`polls`, `options`, `votes` tables) as lists of rows, and the
  three handlers `inline_handler`, `button_handler` (with
  `get_votes_for_option` and `update_message`) and `chosen_result_handler`
  as functions of that state.  A handler that raises an uncaught exception
  (which the dispatcher only logs, src/bot.py:200-201) is modelled as
  returning `none`, with no store mutation beyond what was already
  committed/flushed at the raise point.

Spec-side definitions (`toggle`, `specDedup`, `renderLine_spec`,
`specOptionId`) are written from the specification's words and compared
with the embedded code.
-/
import Mathlib

set_option autoImplicit false
set_option maxRecDepth 100000

namespace Votebot

/-! ### SHA-256 (model of `hashlib.sha256(...).hexdigest()`) -/

/-- Truncate to a 32-bit word. -/
def w32 (n : Nat) : Nat := n % 4294967296

/-- Rotate the 32-bit word `x` right by `n` places. -/
def rotr32 (n x : Nat) : Nat := w32 ((x >>> n) ||| (x <<< (32 - n)))

def bsig0 (x : Nat) : Nat := (rotr32 2 x) ^^^ (rotr32 13 x) ^^^ (rotr32 22 x)
def bsig1 (x : Nat) : Nat := (rotr32 6 x) ^^^ (rotr32 11 x) ^^^ (rotr32 25 x)
def ssig0 (x : Nat) : Nat := (rotr32 7 x) ^^^ (rotr32 18 x) ^^^ (x >>> 3)
def ssig1 (x : Nat) : Nat := (rotr32 17 x) ^^^ (rotr32 19 x) ^^^ (x >>> 10)

/-- The 64 SHA-256 round constants of FIPS 180-4 (in decimal). -/
def K256 : List Nat :=
  [1116352408, 1899447441, 3049323471, 3921009573, 961987163,
   1508970993, 2453635748, 2870763221, 3624381080, 310598401,
   607225278, 1426881987, 1925078388, 2162078206, 2614888103,
   3248222580, 3835390401, 4022224774, 264347078, 604807628,
   770255983, 1249150122, 1555081692, 1996064986, 2554220882,
   2821834349, 2952996808, 3210313671, 3336571891, 3584528711,
   113926993, 338241895, 666307205, 773529912, 1294757372,
   1396182291, 1695183700, 1986661051, 2177026350, 2456956037,
   2730485921, 2820302411, 3259730800, 3345764771, 3516065817,
   3600352804, 4094571909, 275423344, 430227734, 506948616,
   659060556, 883997877, 958139571, 1322822218, 1537002063,
   1747873779, 1955562222, 2024104815, 2227730452, 2361852424,
   2428436474, 2756734187, 3204031479, 3329325298]

/-- The SHA-256 initial hash value of FIPS 180-4 (in decimal). -/
def H256 : List Nat :=
  [1779033703, 3144134277, 1013904242, 2773480762,
   1359893119, 2600822924, 528734635, 1541459225]

/-- UTF-8 encoding of a single character, as a list of byte values. -/
def utf8Bytes (c : Char) : List Nat :=
  let n := c.toNat
  if n < 128 then [n]
  else if n < 2048 then [192 + n / 64, 128 + n % 64]
  else if n < 65536 then [224 + n / 4096, 128 + (n / 64) % 64, 128 + n % 64]
  else [240 + n / 262144, 128 + (n / 4096) % 64, 128 + (n / 64) % 64, 128 + n % 64]

/-- The `k` big-endian bytes of `n`. -/
def beBytes : Nat → Nat → List Nat
  | 0, _ => []
  | k + 1, n => beBytes k (n / 256) ++ [n % 256]

/-- SHA-256 padding: append `0x80`, zeros, and the 64-bit big-endian
bit length, reaching a multiple of 64 bytes. -/
def sha256pad (msg : List Nat) : List Nat :=
  let len := msg.length
  let zeros := (64 - ((len + 9) % 64)) % 64
  msg ++ [128] ++ List.replicate zeros 0 ++ beBytes 8 (8 * len)

/-- Group bytes into big-endian 32-bit words. -/
def toWordsBE : List Nat → List Nat
  | b0 :: b1 :: b2 :: b3 :: rest =>
      (((b0 * 256 + b1) * 256 + b2) * 256 + b3) :: toWordsBE rest
  | _ => []

/-- Split into 64-byte blocks (the fuel argument bounds the number of steps). -/
def chunks64 : Nat → List Nat → List (List Nat)
  | 0, _ => []
  | _, [] => []
  | fuel + 1, l => l.take 64 :: chunks64 fuel (l.drop 64)

/-- Extend the 16 message words to the 64-word schedule (`n` words still to add). -/
def extendW : Nat → List Nat → List Nat
  | 0, ws => ws
  | n + 1, ws =>
      let i := ws.length
      let w := w32 (ssig1 (ws.getD (i - 2) 0) + ws.getD (i - 7) 0 +
                    ssig0 (ws.getD (i - 15) 0) + ws.getD (i - 16) 0)
      extendW n (ws ++ [w])

/-- The eight 32-bit working variables of the compression function. -/
structure Hash8 where
  a : Nat
  b : Nat
  c : Nat
  d : Nat
  e : Nat
  f : Nat
  g : Nat
  h : Nat
deriving Repr, DecidableEq

/-- One SHA-256 round; `kw` is the pair of round constant and schedule word. -/
def sha256round (st : Hash8) (kw : Nat × Nat) : Hash8 :=
  let ch := (st.e &&& st.f) ^^^ ((st.e ^^^ 4294967295) &&& st.g)
  let maj := (st.a &&& st.b) ^^^ (st.a &&& st.c) ^^^ (st.b &&& st.c)
  let t1 := w32 (st.h + bsig1 st.e + ch + kw.1 + kw.2)
  let t2 := w32 (bsig0 st.a + maj)
  ⟨w32 (t1 + t2), st.a, st.b, st.c, w32 (st.d + t1), st.e, st.f, st.g⟩

/-- Process one 64-byte block, updating the running hash (a list of 8 words). -/
def sha256block (hs : List Nat) (block : List Nat) : List Nat :=
  let ws := extendW 48 (toWordsBE block)
  let st0 : Hash8 := ⟨hs.getD 0 0, hs.getD 1 0, hs.getD 2 0, hs.getD 3 0,
                      hs.getD 4 0, hs.getD 5 0, hs.getD 6 0, hs.getD 7 0⟩
  let st := (K256.zip ws).foldl sha256round st0
  [w32 (hs.getD 0 0 + st.a), w32 (hs.getD 1 0 + st.b), w32 (hs.getD 2 0 + st.c),
   w32 (hs.getD 3 0 + st.d), w32 (hs.getD 4 0 + st.e), w32 (hs.getD 5 0 + st.f),
   w32 (hs.getD 6 0 + st.g), w32 (hs.getD 7 0 + st.h)]

/-- Lower-case hex digit. -/
def hexDigit (n : Nat) : Char := if n < 10 then Char.ofNat (48 + n) else Char.ofNat (87 + n)

/-- Eight hex digits of a 32-bit word, most significant first. -/
def hexWord8 (n : Nat) : List Char :=
  (List.range 8).map (fun i => hexDigit ((n >>> (28 - 4 * i)) &&& 15))

/-- Model of `hash` (src/bot.py:32-35): the full 64-character lower-case
hexadecimal SHA-256 digest of the UTF-8 bytes of `s`.  (The Python name
`hash` is taken by Lean's prelude.) -/
def sha256hex (s : String) : String :=
  let bytes := sha256pad (s.data.flatMap utf8Bytes)
  let hs := (chunks64 bytes.length bytes).foldl sha256block H256
  String.mk (hs.flatMap hexWord8)

/-! ### Rendering engine (src/bot.py:64-94)

Python computes `vote / total` in IEEE-754 binary64 arithmetic.  The model
represents each double by its exact rational value: `fl64` is the IEEE
round-to-nearest-ties-to-even rounding of a nonnegative rational to the
binary64 grid (53-bit significands, gradual underflow below `2 ^ (-1022)`,
values `≥ 2 ^ 1024` standing for the overflowed infinity), so the chain
`fl64 (v / t)`, `fl64 (d * 15)`, `fl64 (d * 100)` is exactly the value the
program's doubles hold.  Python's `round` on a finite double and the
decimal conversion done by `"{:.0%}"` are correct roundings, ties to even,
of that exact value, which `roundHalfEven` computes. -/

/-- Round a rational to the nearest integer, ties to even: the exact
behaviour of Python's one-argument `round` on a finite double and of the
final decimal rounding in `"{:.0%}"` formatting. -/
def roundHalfEven (q : ℚ) : ℤ :=
  let f := ⌊q⌋
  let r := q - (f : ℚ)
  if r < 1 / 2 then f
  else if 1 / 2 < r then f + 1
  else if f % 2 = 0 then f else f + 1

/-- IEEE-754 binary64 rounding (round to nearest, ties to even) of a
nonnegative rational: the significand grid has spacing
`2 ^ (max (⌊log₂ q⌋ - 52) (-1074))` — the `-1074` clamp is gradual
underflow.  No overflow cap is applied here; callers treat a result
`≥ 2 ^ 1024` as the IEEE infinity. -/
def fl64 (q : ℚ) : ℚ :=
  if q ≤ 0 then 0
  else
    (roundHalfEven (q / 2 ^ max (Int.log 2 q - 52) (-1074)) : ℚ)
      * 2 ^ max (Int.log 2 q - 52) (-1074)

/-- Model of Python's `int / int` true division: `none` is the
`ZeroDivisionError` on a zero divisor or the `OverflowError` when the
correctly rounded quotient leaves the double range; otherwise the exact
value of the resulting double. -/
def div64 (a b : Nat) : Option ℚ :=
  if b = 0 then none
  else
    if fl64 ((a : ℚ) / (b : ℚ)) < 2 ^ (1024 : ℤ) then some (fl64 ((a : ℚ) / (b : ℚ)))
    else none

/-- Model of `"{:.0%}".format(x)` for a nonnegative double `x`: multiply by
100 (one correctly rounded double multiplication), then convert to decimal
with zero digits after the point (correct rounding, ties to even, of the
double's exact value); an overflowed product prints as infinity. -/
def pct0Format (x : ℚ) : String :=
  if fl64 (x * 100) < 2 ^ (1024 : ℤ) then toString (roundHalfEven (fl64 (x * 100))) ++ "%"
  else "inf%"

/-- Model of `generate_line` (src/bot.py:64-69).  `none` models an uncaught
exception: the `ZeroDivisionError` (or `OverflowError`) raised by
`vote / total`, or the `OverflowError` raised by `round` on an infinite
`vote / total * 15`.  The bar length is `round(vote / total * 15)` where
both the division and the multiplication are rounded doubles, and the
percentage is `"{:.0%}"` of the quotient double. -/
def generate_line (part : String) (vote : Nat) (total : Nat) : Option String :=
  if vote == 0 then some (part ++ "\n▫️  0%")
  else
    match div64 vote total with
    | none => none
    | some d1 =>
        let d3 := fl64 (d1 * 15)
        if d3 < 2 ^ (1024 : ℤ) then
          some (part ++ " - " ++ toString vote ++ "\n"
            ++ String.mk (List.replicate (roundHalfEven d3).toNat '👍')
            ++ " " ++ pct0Format d1)
        else none

/-- Sequence a list of `Option`s, failing on the first `none`; models a
Python generator whose body can raise, consumed by `str.join`. -/
def optionJoin {α : Type} : List (Option α) → Option (List α)
  | [] => some []
  | none :: _ => none
  | some a :: rest => (optionJoin rest).map (fun l => a :: l)

/-- Model of `generate_message` (src/bot.py:72-79).  `votes = none` models the
Python default `votes=None` (a list of zeros of the same length as `parts`). -/
def generate_message (question : String) (parts : List String)
    (votes : Option (List Nat)) : Option String :=
  let votes := votes.getD (List.replicate parts.length 0)
  let total := votes.sum
  match optionJoin ((parts.zip votes).map (fun pv => generate_line pv.1 pv.2 total)) with
  | none => none
  | some lines => some ("*" ++ question ++ "*\n\n" ++ String.intercalate "\n\n" lines)

/-- An inline keyboard button: display text and callback token. -/
structure Button where
  text : String
  callback_data : String
deriving Repr, DecidableEq

/-- Model of `generate_button` (src/bot.py:81-86).  `query_id` is already a
string here, so Python's `str(query_id)` is the identity. -/
def generate_button (query_id : String) (part : String) (vote : Nat) : Button :=
  if vote == 0 then ⟨part, query_id ++ (sha256hex part).take 32⟩
  else ⟨part ++ " - " ++ toString vote, query_id ++ (sha256hex part).take 32⟩

/-- Model of `generate_buttons` (src/bot.py:88-94): one button per option,
one option per row. -/
def generate_buttons (query_id : String) (parts : List String)
    (votes : Option (List Nat)) : List (List Button) :=
  let votes := votes.getD (List.replicate parts.length 0)
  (parts.zip votes).map (fun pv => [generate_button query_id pv.1 pv.2])

/-! ### Option deduplication (src/bot.py:172-175) -/

/-- The loop of `deduplicate`: `seen` is the set of strings already kept. -/
def dedupAux : List String → List String → List String
  | [], _ => []
  | x :: xs, seen =>
      if seen.contains x then dedupAux xs seen else x :: dedupAux xs (x :: seen)

/-- Model of `deduplicate` (src/bot.py:172-175): keep the first occurrence of
each string, preserving order (case-sensitive exact match, since Python
string equality is exact). -/
def deduplicate (seq : List String) : List String := dedupAux seq []

/-- Spec-side deduplication, from the specification's words: keep each
string's first occurrence, in order of first occurrence, dropping the later
duplicates. -/
def specDedup : List String → List String
  | [] => []
  | x :: xs => x :: (specDedup xs).filter (fun a => a != x)

/-! ### `shlex.split` (POSIX mode, whitespace_split, comments off)

Model of Python's `shlex.split` as called in src/bot.py:104 and 178.
Outside quotes a backslash escapes any character; inside double quotes it
escapes only `"` and `\` (and is otherwise kept literally); inside single
quotes nothing is special.  At end of input, an open quote raises
`ValueError("No closing quotation")` and a pending escape raises
`ValueError("No escaped character")`; both are modelled as `none`. -/

/-- Lexer mode: outside quotes, after a backslash outside quotes, inside
single quotes, inside double quotes, after a backslash inside double
quotes. -/
inductive ShMode
  | norm
  | esc
  | squote
  | dquote
  | dqesc
deriving Repr, DecidableEq

/-- Lexer state: mode, the token being built (`none` when no token has been
started; quotes start an empty token), and the words emitted so far. -/
structure ShState where
  mode : ShMode
  token : Option String
  acc : List String
deriving Repr, DecidableEq

/-- The `shlex` whitespace characters. -/
def isShWhitespace (c : Char) : Bool :=
  c == ' ' || c == '\t' || c == '\r' || c == '\n'

/-- One step of the `shlex` state machine. -/
def shStep (st : ShState) (c : Char) : ShState :=
  match st.mode with
  | ShMode.norm =>
      if isShWhitespace c then
        match st.token with
        | some t => ⟨ShMode.norm, none, st.acc ++ [t]⟩
        | none => st
      else if c == '\'' then { st with mode := ShMode.squote, token := some (st.token.getD "") }
      else if c == '"' then { st with mode := ShMode.dquote, token := some (st.token.getD "") }
      else if c == '\\' then { st with mode := ShMode.esc, token := some (st.token.getD "") }
      else { st with token := some ((st.token.getD "").push c) }
  | ShMode.esc => { st with mode := ShMode.norm, token := some ((st.token.getD "").push c) }
  | ShMode.squote =>
      if c == '\'' then { st with mode := ShMode.norm }
      else { st with token := some ((st.token.getD "").push c) }
  | ShMode.dquote =>
      if c == '"' then { st with mode := ShMode.norm }
      else if c == '\\' then { st with mode := ShMode.dqesc }
      else { st with token := some ((st.token.getD "").push c) }
  | ShMode.dqesc =>
      if c == '"' || c == '\\' then
        { st with mode := ShMode.dquote, token := some ((st.token.getD "").push c) }
      else
        { st with mode := ShMode.dquote, token := some (((st.token.getD "").push '\\').push c) }

/-- Run the state machine and finish at end of input. -/
def shRun : List Char → ShState → Option (List String)
  | [], st =>
      match st.mode with
      | ShMode.norm => some (st.acc ++ st.token.toList)
      | _ => none
  | c :: cs, st => shRun cs (shStep st c)

/-- Model of `shlex.split` (`none` = `ValueError`). -/
def shlexSplit (s : String) : Option (List String) :=
  shRun s.data ⟨ShMode.norm, none, []⟩

/-! ### The store (§6: tables `polls`, `options`, `votes`) and the handlers -/

/-- A row of the `polls` table (src/bot.py:38-43).  The poll id is the
Telegram inline-result id; the source passes it around as a string and it
is kept as a string here (the `BigInteger` column coercion is a transport
detail). -/
structure PollRow where
  id : String
  title : String
  creator_id : Int
deriving Repr, DecidableEq

/-- A row of the `options` table (src/bot.py:46-51). -/
structure OptionRow where
  id : String
  title : String
  poll_id : String
deriving Repr, DecidableEq

/-- A row of the `votes` table (src/bot.py:54-58).  `vid` is the
`time.time()` value used as the `id` column (modelled as a natural number;
only its ordering is ever used). -/
structure VoteRow where
  vid : Nat
  user_id : Int
  option_id : String
deriving Repr, DecidableEq

/-- The relational store. -/
structure DB where
  polls : List PollRow
  options : List OptionRow
  votes : List VoteRow
deriving Repr, DecidableEq

/-- Model of `get_votes_for_option` (src/bot.py:135-137): the number of
distinct `user_id`s among the vote rows whose `option_id` equals
`option_id` (the SQL `GROUP BY user_id` followed by `count()`). -/
def get_votes_for_option (votes : List VoteRow) (option_id : String) : Nat :=
  (((votes.filter (fun v => v.option_id == option_id)).map
      (fun v => v.user_id)).dedup).length

/-- Model of `update_message` (src/bot.py:140-152): resolve the callback
token to an option row, re-render the poll, and return the message edit.
`none` models the uncaught `AttributeError` raised by `option_voted.poll`
when no option row matches `data` (and, for completeness, a dangling
foreign key or a `ZeroDivisionError`, neither of which can occur). -/
def update_message (db : DB) (data : String) : Option (String × List (List Button)) :=
  match db.options.find? (fun o => o.id == data) with
  | none => none
  | some option_voted =>
      match db.polls.find? (fun p => p.id == option_voted.poll_id) with
      | none => none
      | some poll =>
          let options := db.options.filter (fun o => o.poll_id == poll.id)
          let options_text := options.map (fun o => o.title)
          let votes := options.map (fun o => get_votes_for_option db.votes o.id)
          match generate_message poll.title options_text (some votes) with
          | none => none
          | some message =>
              some (message, generate_buttons poll.id options_text (some votes))

/-- The vote mutation performed by `button_handler` (src/bot.py:155-170).

The Python filter is `Vote.user_id == u and Vote.option_id == data`; the
`and` evaluates the truthiness of the first SQLAlchemy `BinaryExpression`
(false, as it compares the hashes of a column object and an integer) and
therefore yields that first expression, so the query filters on `user_id`
alone.  `result` is the row with the smallest `id` (timestamp) among the
user's votes; if it exists and already references `data`, all the user's
rows are deleted (toggle-off), otherwise all the user's rows are deleted
and a single new row for `data` is inserted. -/
def firstByIdAsc : List VoteRow → Option VoteRow
  | [] => none
  | v :: vs =>
      match firstByIdAsc vs with
      | none => some v
      | some w => if v.vid ≤ w.vid then some v else some w

/-- The rows the buggy query of `button_handler` selects: all vote rows of
the user (`Vote.user_id == u`, the surviving half of the `and`); also used
below as "the vote rows a user currently holds". -/
def userVotes (u : Int) (votes : List VoteRow) : List VoteRow :=
  votes.filter (fun v => v.user_id == u)

/-- New contents of the `votes` table after one tap (see `firstByIdAsc`):
`votes.delete()` removes every row of the user, and except on toggle-off a
single new row is inserted. -/
def voteStep (votes : List VoteRow) (u : Int) (data : String) (t : Nat) : List VoteRow :=
  let kept := votes.filter (fun v => !(v.user_id == u))
  match firstByIdAsc (userVotes u votes) with
  | some result =>
      if result.option_id == data then kept
      else kept ++ [⟨t, u, data⟩]
  | none => kept ++ [⟨t, u, data⟩]

/-- Model of `button_handler` (src/bot.py:155-170): apply the vote mutation,
then re-render and edit the message.  The second component is the message
edit; `none` means the handler raised inside `update_message` (only logged
by the dispatcher) — note that in that case the vote mutation has already
been issued on the session (and committed, on the insert path), so the
store change persists. -/
def button_handler (db : DB) (u : Int) (data : String) (t : Nat) :
    DB × Option (String × List (List Button)) :=
  let db' : DB := { db with votes := voteStep db.votes u data t }
  (db', update_message db' data)

/-- The answer produced by `inline_handler`: either a plain announcement
article (title-only query) or a poll card with buttons. -/
inductive InlineAnswer
  | plain (id : String) (title : String) (message : String)
  | poll (id : String) (title : String) (description : String)
         (message : String) (buttons : List (List Button))
deriving Repr, DecidableEq

/-- Model of `inline_handler` (src/bot.py:97-132).  `none` means no answer
is sent: the empty-query early return, the `except ValueError` branch, or
the `IndexError` on `parts[0]` when the query is pure whitespace. -/
def inline_handler (query : String) (query_id : String) : Option InlineAnswer :=
  if query == "" then none
  else
    match shlexSplit query with
    | none => none
    | some [] => none
    | some [title] => some (InlineAnswer.plain query_id title ("*" ++ title ++ "*"))
    | some (title :: rest) =>
        let options := deduplicate rest
        let description := String.intercalate " / " options
        match generate_message title options none with
        | none => none
        | some msg =>
            some (InlineAnswer.poll query_id title description msg
              (generate_buttons query_id options none))

/-- Model of `chosen_result_handler` (src/bot.py:177-191): parse the query,
deduplicate the option titles, and persist one `Poll` row plus one
`Option` row per title with id `result_id ++ sha256hex(title)[:32]`.
`none` models an uncaught exception before any row is added (the
`ValueError` from `shlex.split` or the `IndexError` on `parts[0]`), logged
by the dispatcher; the store is unchanged in that case. -/
def chosen_result_handler (db : DB) (queryText : String) (result_id : String)
    (from_user : Int) : Option DB :=
  match shlexSplit queryText with
  | none => none
  | some [] => none
  | some (title :: rest) =>
      let options := (deduplicate rest).map
        (fun part => OptionRow.mk (result_id ++ (sha256hex part).take 32) part result_id)
      some { db with polls := db.polls ++ [PollRow.mk result_id title from_user],
                     options := db.options ++ options }

/-! ### The vote toggle state machine (spec §4.5) -/

/-- Vote state of one user, from the specification's words. -/
inductive VoteState
  | noVote
  | votedFor (option_id : String)
deriving Repr, DecidableEq

/-- The transition table of §4.5. -/
def toggle : VoteState → String → VoteState
  | VoteState.noVote, x => VoteState.votedFor x
  | VoteState.votedFor x, y => if x == y then VoteState.noVote else VoteState.votedFor y

/-- The options a `VoteState` holds (zero or one). -/
def stateOptions : VoteState → List String
  | VoteState.noVote => []
  | VoteState.votedFor o => [o]

/-- One button tap: acting user, callback token, `time.time()` timestamp. -/
structure Tap where
  user : Int
  data : String
  t : Nat
deriving Repr, DecidableEq

/-- The `votes` table produced by a sequence of taps processed by the vote
path, starting from an empty table. -/
def runVotes (taps : List Tap) : List VoteRow :=
  taps.foldl (fun s tp => voteStep s tp.user tp.data tp.t) []

/-- The callback tokens of the taps of one user, in order. -/
def userTaps (u : Int) (taps : List Tap) : List String :=
  (taps.filter (fun tp => tp.user == u)).map (fun tp => tp.data)

/-- The vote rows a user holds among a given set of option ids (the rows
"for one poll" when `optIds` lists that poll's option ids). -/
def pollVotes (u : Int) (optIds : List String) (votes : List VoteRow) : List VoteRow :=
  (userVotes u votes).filter (fun v => optIds.contains v.option_id)

/-! ### Further spec-side definitions -/

/-- Spec-side rendering of one option line, from the specification's words
(§4.4): zero votes render the option with the neutral marker; otherwise
`"<title> - <count>"`, a bar of `round(voteCount/totalVotes * 15)` glyphs,
and the percentage with zero decimal places.  The formulas name the
program's arithmetic, so `voteCount/totalVotes` is the rounded double
`fl64` delivers and `round` and the percent format round its exact value
ties-to-even, as in the code model. -/
def renderLine_spec (part : String) (vote : Nat) (total : Nat) : String :=
  if vote == 0 then part ++ "\n▫️  0%"
  else
    let d1 := fl64 ((vote : ℚ) / (total : ℚ))
    part ++ " - " ++ toString vote ++ "\n"
      ++ String.mk (List.replicate (roundHalfEven (fl64 (d1 * 15))).toNat '👍')
      ++ " " ++ pct0Format d1

/-- The option-id formula asserted by the claim (spec §4.3): the
fingerprint of `pollId ++ title`, truncated to 32 hex characters. -/
def specOptionId (pollId : String) (title : String) : String :=
  (sha256hex (pollId ++ title)).take 32

/-! ### Concrete instances used by counterexamples and witnesses -/

/-- The empty store. -/
def emptyDB : DB := ⟨[], [], []⟩

/-- The store created by publishing the query `"Lunch Pizza"` with inline
result id `"1"` as user 9 (option id `"1" ++ sha256hex "Pizza" [:32]`). -/
def demoLunchDB : DB :=
  ⟨[⟨"1", "Lunch", 9⟩],
   [⟨"1f12958816a49adfa2c6c8de8dd2144c1", "Pizza", "1"⟩],
   []⟩

/-- A store with two polls: poll `"1"` with option `"A1"` and poll `"2"`
with option `"B1"`; user 7 currently holds one vote, for option `"A1"` of
poll `"1"`. -/
def dbTwoPolls : DB :=
  ⟨[⟨"1", "Fruit", 9⟩, ⟨"2", "Veg", 9⟩],
   [⟨"A1", "Apples", "1"⟩, ⟨"B1", "Beets", "2"⟩],
   [⟨0, 7, "A1"⟩]⟩

/-- A run of taps all on the options `["a", "b"]` of one poll: user 1 taps
`a`, then `b`, user 2 taps `a`, then user 1 taps `b` again (toggle-off). -/
def tapsDemo : List Tap := [⟨1, "a", 0⟩, ⟨1, "b", 1⟩, ⟨2, "a", 2⟩, ⟨1, "b", 3⟩]

/-! ### Vote-path lemmas (claims C1, C2, C3, C10) -/

theorem userVotes_append (u : Int) (l1 l2 : List VoteRow) :
    userVotes u (l1 ++ l2) = userVotes u l1 ++ userVotes u l2 :=
  List.filter_append l1 l2

/-- Deleting all of a user's rows leaves the user with no rows. -/
theorem userVotes_deleted (s : List VoteRow) (u : Int) :
    userVotes u (s.filter (fun v => !(v.user_id == u))) = [] := by
  rw [userVotes, List.filter_filter]
  apply List.filter_eq_nil_iff.mpr
  intro v _
  cases h : v.user_id == u <;> simp [h]

/-- After a user's own tap, the user's rows are: none on toggle-off,
exactly the new row otherwise. -/
theorem userVotes_voteStep_self (s : List VoteRow) (u : Int) (d : String) (t : Nat) :
    userVotes u (voteStep s u d t)
      = (match firstByIdAsc (userVotes u s) with
         | some r => if r.option_id == d then [] else [⟨t, u, d⟩]
         | none => [⟨t, u, d⟩]) := by
  have hsingle : userVotes u [(⟨t, u, d⟩ : VoteRow)] = [⟨t, u, d⟩] := by
    simp [userVotes]
  cases hfa : firstByIdAsc (userVotes u s) with
  | none =>
      simp only [voteStep, hfa]
      rw [userVotes_append, userVotes_deleted, hsingle, List.nil_append]
  | some r =>
      simp only [voteStep, hfa]
      by_cases hopt : r.option_id == d
      · rw [if_pos hopt, if_pos hopt, userVotes_deleted]
      · rw [if_neg hopt, if_neg hopt,
          userVotes_append, userVotes_deleted, hsingle, List.nil_append]

/-- Another user's tap does not change this user's rows (the buggy filter
still scopes correctly per user; only the per-poll scoping is lost). -/
theorem userVotes_voteStep_other (s : List VoteRow) (u u' : Int) (d : String) (t : Nat)
    (h : u ≠ u') : userVotes u (voteStep s u' d t) = userVotes u s := by
  have hkept : userVotes u (s.filter (fun v => !(v.user_id == u'))) = userVotes u s := by
    rw [userVotes, List.filter_filter]
    apply List.filter_congr
    intro v _
    cases hv : v.user_id == u
    · simp
    · have : v.user_id = u := by simpa using hv
      have : ¬(v.user_id == u') = true := by simp [this, h]
      simp [hv, this]
  have hsingle : userVotes u [(⟨t, u', d⟩ : VoteRow)] = [] := by
    simp [userVotes, Ne.symm h]
  cases hfa : firstByIdAsc (userVotes u' s) with
  | none =>
      simp only [voteStep, hfa]
      rw [userVotes_append, hkept, hsingle, List.append_nil]
  | some r =>
      simp only [voteStep, hfa]
      by_cases hopt : r.option_id == d
      · rw [if_pos hopt, hkept]
      · rw [if_neg hopt, userVotes_append, hkept, hsingle, List.append_nil]

theorem runVotes_concat (taps : List Tap) (tp : Tap) :
    runVotes (taps ++ [tp]) = voteStep (runVotes taps) tp.user tp.data tp.t := by
  rw [runVotes, runVotes, List.foldl_append]
  rfl

theorem userTaps_concat_other (u : Int) (taps : List Tap) (tp : Tap) (h : tp.user ≠ u) :
    userTaps u (taps ++ [tp]) = userTaps u taps := by
  rw [userTaps, userTaps, List.filter_append, List.map_append]
  have : List.filter (fun tp => tp.user == u) [tp] = [] := by simp [h]
  rw [this]
  simp

theorem userTaps_concat_self (u : Int) (taps : List Tap) (tp : Tap) (h : tp.user = u) :
    userTaps u (taps ++ [tp]) = userTaps u taps ++ [tp.data] := by
  rw [userTaps, userTaps, List.filter_append, List.map_append]
  have : List.filter (fun tp => tp.user == u) [tp] = [tp] := by simp [h]
  rw [this]
  rfl

theorem toggle_votedFor_eq {s : VoteState} {x o : String}
    (h : toggle s x = VoteState.votedFor o) : o = x := by
  cases s with
  | noVote =>
      rw [toggle] at h
      exact (VoteState.votedFor.inj h).symm
  | votedFor y =>
      rw [toggle] at h
      by_cases hyx : y == x
      · rw [if_pos hyx] at h; exact absurd h (by simp)
      · rw [if_neg hyx] at h; exact (VoteState.votedFor.inj h).symm

/-- A reachable `votedFor` state names one of the tapped options. -/
theorem foldl_toggle_mem : ∀ (xs : List String) (s : VoteState) (o : String),
    List.foldl toggle s xs = VoteState.votedFor o → o ∈ xs ∨ s = VoteState.votedFor o
  | [], _, _, h => Or.inr h
  | x :: xs, s, o, h => by
      rcases foldl_toggle_mem xs (toggle s x) o h with hm | he
      · exact Or.inl (List.mem_cons_of_mem x hm)
      · exact Or.inl (by rw [toggle_votedFor_eq he]; exact List.mem_cons_self x xs)

/-- Core correctness of the vote path: starting from an empty `votes`
table, after any sequence of taps each user's stored rows are exactly
what the §4.5 state machine, folded over that user's taps, prescribes:
no row for `NoVote`, a single row for the voted option for `VotedFor`. -/
theorem userVotes_runVotes (u : Int) (taps : List Tap) :
    (match List.foldl toggle VoteState.noVote (userTaps u taps) with
     | VoteState.noVote => userVotes u (runVotes taps) = []
     | VoteState.votedFor o => ∃ t, userVotes u (runVotes taps) = [⟨t, u, o⟩]) := by
  induction taps using List.reverseRecOn with
  | nil => rw [show userTaps u [] = [] from rfl]; rfl
  | append_singleton taps tp ih =>
      by_cases hu : tp.user = u
      · rw [userTaps_concat_self u taps tp hu, List.foldl_append]
        have hrun : userVotes u (runVotes (taps ++ [tp]))
            = (match firstByIdAsc (userVotes u (runVotes taps)) with
               | some r => if r.option_id == tp.data then [] else [⟨tp.t, u, tp.data⟩]
               | none => [⟨tp.t, u, tp.data⟩]) := by
          rw [runVotes_concat, hu, userVotes_voteStep_self]
        cases hst : List.foldl toggle VoteState.noVote (userTaps u taps) with
        | noVote =>
            rw [hst] at ih
            rw [hrun, ih]
            exact ⟨tp.t, rfl⟩
        | votedFor o =>
            rw [hst] at ih
            obtain ⟨t0, hv⟩ := ih
            rw [hrun, hv]
            by_cases ho : o == tp.data
            · have : toggle (VoteState.votedFor o) tp.data = VoteState.noVote := by
                rw [toggle, if_pos ho]
              rw [List.foldl_cons, List.foldl_nil, this]
              show (if (⟨t0, u, o⟩ : VoteRow).option_id == tp.data then ([] : List VoteRow)
                    else [⟨tp.t, u, tp.data⟩]) = []
              rw [if_pos ho]
            · have : toggle (VoteState.votedFor o) tp.data = VoteState.votedFor tp.data := by
                rw [toggle, if_neg ho]
              rw [List.foldl_cons, List.foldl_nil, this]
              refine ⟨tp.t, ?_⟩
              show (if (⟨t0, u, o⟩ : VoteRow).option_id == tp.data then ([] : List VoteRow)
                    else [⟨tp.t, u, tp.data⟩]) = [⟨tp.t, u, tp.data⟩]
              rw [if_neg ho]
      · rw [userTaps_concat_other u taps tp hu]
        have : userVotes u (runVotes (taps ++ [tp])) = userVotes u (runVotes taps) := by
          rw [runVotes_concat]
          exact userVotes_voteStep_other _ u tp.user tp.data tp.t (fun he => hu he.symm)
        rw [this]
        exact ih

/-! ### Deduplication lemmas (claim C7) -/

theorem dedupAux_eq : ∀ (xs seen : List String),
    dedupAux xs seen = (specDedup xs).filter (fun a => !seen.contains a)
  | [], _ => rfl
  | x :: xs, seen => by
    by_cases hx : x ∈ seen
    · rw [dedupAux, if_pos (by simpa using hx), dedupAux_eq xs seen, specDedup,
        List.filter_cons_of_neg (by simpa using hx), List.filter_filter]
      apply List.filter_congr
      intro a _
      by_cases hax : a = x
      · subst hax; simp [hx]
      · simp [hax]
    · rw [dedupAux, if_neg (by simpa using hx), dedupAux_eq xs (x :: seen), specDedup,
        List.filter_cons_of_pos (by simpa using hx), List.filter_filter]
      congr 1
      apply List.filter_congr
      intro a _
      by_cases hax : a = x
      · subst hax; simp
      · simp [hax, Ne.symm hax]

theorem deduplicate_eq_specDedup (xs : List String) : deduplicate xs = specDedup xs := by
  rw [deduplicate, dedupAux_eq]
  apply List.filter_eq_self.mpr
  intro a _
  simp

theorem mem_specDedup : ∀ (xs : List String) (a : String), a ∈ specDedup xs ↔ a ∈ xs
  | [], a => Iff.rfl
  | x :: xs, a => by
    simp only [specDedup, List.mem_cons, List.mem_filter, bne_iff_ne]
    constructor
    · rintro (rfl | ⟨h, _⟩)
      · exact Or.inl rfl
      · exact Or.inr ((mem_specDedup xs a).mp h)
    · rintro (rfl | h)
      · exact Or.inl rfl
      · by_cases hax : a = x
        · exact Or.inl hax
        · exact Or.inr ⟨(mem_specDedup xs a).mpr h, hax⟩

theorem nodup_specDedup : ∀ xs : List String, (specDedup xs).Nodup
  | [] => List.nodup_nil
  | x :: xs => by
    rw [specDedup, List.nodup_cons]
    refine ⟨fun hmem => ?_, List.Nodup.filter _ (nodup_specDedup xs)⟩
    have := (List.mem_filter.mp hmem).2
    simp at this

theorem specDedup_sublist : ∀ xs : List String, (specDedup xs).Sublist xs
  | [] => List.Sublist.refl []
  | x :: xs =>
    List.Sublist.cons₂ x ((List.filter_sublist (specDedup xs)).trans (specDedup_sublist xs))

theorem specDedup_eq_self_of_nodup : ∀ xs : List String, xs.Nodup → specDedup xs = xs
  | [], _ => rfl
  | x :: xs, h => by
    rcases List.nodup_cons.mp h with ⟨hx, hxs⟩
    rw [specDedup, specDedup_eq_self_of_nodup xs hxs,
      List.filter_eq_self.mpr (fun a ha => ?_)]
    simp only [bne_iff_ne]
    exact fun hax => hx (hax ▸ ha)

/-- C7: `deduplicate` keeps exactly the first occurrence of each string in
order of first occurrence (it equals the spec-side `specDedup`, is an
order-preserving duplicate-free subselection of its input with the same
members, uses case-sensitive exact string equality by construction), and it
is idempotent. -/
theorem votebot_deduplicate_first_occurrence_and_idempotent (xs : List String) :
    deduplicate xs = specDedup xs
    ∧ (deduplicate xs).Sublist xs
    ∧ (deduplicate xs).Nodup
    ∧ (∀ a, a ∈ deduplicate xs ↔ a ∈ xs)
    ∧ deduplicate (deduplicate xs) = deduplicate xs := by
  have he := deduplicate_eq_specDedup xs
  refine ⟨he, ?_, ?_, ?_, ?_⟩
  · rw [he]; exact specDedup_sublist xs
  · rw [he]; exact nodup_specDedup xs
  · intro a; rw [he]; exact mem_specDedup xs a
  · rw [he, deduplicate_eq_specDedup]
    exact specDedup_eq_self_of_nodup _ (nodup_specDedup xs)

/-! ### Tally (claim C8) -/

/-- C8: `get_votes_for_option` returns the number of distinct user ids
among the vote rows currently referencing the option; it is a pure
function of the current `votes` table (no cached counter exists in the
model or the code). -/
theorem votebot_tally_counts_distinct_users (votes : List VoteRow) (option_id : String) :
    get_votes_for_option votes option_id
      = ((votes.filter (fun v => v.option_id = option_id)).map
          (fun v => v.user_id)).toFinset.card := by
  rw [get_votes_for_option, List.card_toFinset]
  have hfilter : votes.filter (fun v => v.option_id == option_id)
      = votes.filter (fun v => decide (v.option_id = option_id)) :=
    List.filter_congr (fun v _ => by
      by_cases h : v.option_id = option_id <;> simp [h])
  rw [hfilter]

/-! ### Claim theorems: the vote path -/

/-- C1: starting from an empty store, for every user `u`, every list of
option ids of one poll, and every tap sequence on those options, the user's
stored vote rows among that poll's options are exactly what the §4.5
transition table prescribes (folded over the user's taps): no row after a
toggle-off, the single last distinct tapped option otherwise — in
particular at most one row across all of that poll's options after every
tap (every prefix of a tap sequence is itself a tap sequence). -/
theorem votebot_toggle_follows_transition_table (optIds : List String) (taps : List Tap)
    (u : Int) (h : taps.all (fun tp => optIds.contains tp.data) = true) :
    (pollVotes u optIds (runVotes taps)).map (fun v => v.option_id)
        = stateOptions (List.foldl toggle VoteState.noVote (userTaps u taps))
    ∧ (pollVotes u optIds (runVotes taps)).length ≤ 1 := by
  have hmem : ∀ tp ∈ taps, optIds.contains tp.data = true := List.all_eq_true.mp h
  have hmain := userVotes_runVotes u taps
  cases hst : List.foldl toggle VoteState.noVote (userTaps u taps) with
  | noVote =>
      rw [hst] at hmain
      constructor
      · rw [pollVotes, hmain]; rfl
      · rw [pollVotes, hmain]; simp
  | votedFor o =>
      rw [hst] at hmain
      obtain ⟨t0, hv⟩ := hmain
      have ho : o ∈ userTaps u taps := by
        rcases foldl_toggle_mem (userTaps u taps) VoteState.noVote o hst with hm | he
        · exact hm
        · exact absurd he (by simp)
      have hoIn : optIds.contains o = true := by
        rcases List.mem_map.mp ho with ⟨tp, htp, rfl⟩
        exact hmem tp (List.mem_filter.mp htp).1
      have hoMem : o ∈ optIds := by simpa using hoIn
      constructor
      · rw [pollVotes, hv]; simp [stateOptions, hoMem]
      · rw [pollVotes, hv]
        exact (List.length_filter_le _ _).trans (by simp)

theorem votebot_toggle_follows_transition_table_witness :
    tapsDemo.all (fun tp => (["a", "b"] : List String).contains tp.data) = true
    ∧ ((pollVotes 1 ["a", "b"] (runVotes tapsDemo)).map (fun v => v.option_id)
          = stateOptions (List.foldl toggle VoteState.noVote (userTaps 1 tapsDemo))
      ∧ (pollVotes 1 ["a", "b"] (runVotes tapsDemo)).length ≤ 1) :=
  ⟨by decide, votebot_toggle_follows_transition_table ["a", "b"] tapsDemo 1 (by decide)⟩

/-- C10: after any single tap on any store, the tapping user holds at most
one vote row in the entire `votes` table, across all polls: the tap first
deletes every row whose `user_id` matches the user (the filter lost its
`option_id` clause to the Python `and`), then inserts at most one row. -/
theorem votebot_tap_leaves_at_most_one_vote (db : DB) (u : Int) (data : String) (t : Nat) :
    (userVotes u (button_handler db u data t).1.votes).length ≤ 1 := by
  show (userVotes u (voteStep db.votes u data t)).length ≤ 1
  rw [userVotes_voteStep_self]
  cases firstByIdAsc (userVotes u db.votes) with
  | none => simp
  | some r => by_cases ho : r.option_id == data <;> simp [ho]

/-- C2 (refuting theorem): in `dbTwoPolls`, user 7 holds one vote, for
option `"A1"` of poll `"1"`; tapping option `"B1"` of the *other* poll
`"2"` deletes that row (the claim says vote rows referencing other polls
are left unchanged).  The `and` in the Python filter discards the
`option_id` clause, so the delete matches on `user_id` alone. -/
theorem votebot_cross_poll_vote_deleted :
    dbTwoPolls.votes = [⟨0, 7, "A1"⟩]
    ∧ (button_handler dbTwoPolls 7 "B1" 5).1.votes = [⟨5, 7, "B1"⟩] := by
  constructor <;> rfl

/-- C3 (counterexample): tapping with a token that resolves to no option
(`"zz"`) is not a no-op: a vote row carrying the unresolved token is
inserted (and the message edit fails with `none`). -/
theorem votebot_unknown_token_inserts_row :
    (button_handler demoLunchDB 5 "zz" 3).1.votes ≠ demoLunchDB.votes
    ∧ (button_handler demoLunchDB 5 "zz" 3).1.votes = [⟨3, 5, "zz"⟩]
    ∧ (button_handler demoLunchDB 5 "zz" 3).2 = none := by
  refine ⟨?_, ?_, ?_⟩ <;> decide

/-- C3 (amended): for a callback token that resolves to no option, the vote
path still runs the toggle against the raw token — it deletes all the
user's vote rows and, unless the user's earliest vote already carried that
token, inserts a row referencing the unresolved token — and then fails on
the missing option before any message edit is issued (`none`); the failure
is only logged. -/
theorem votebot_unknown_token_mutates_without_edit (db : DB) (u : Int) (data : String)
    (t : Nat) (h : db.options.all (fun o => !(o.id == data)) = true) :
    (button_handler db u data t).2 = none
    ∧ userVotes u (button_handler db u data t).1.votes
        = (match firstByIdAsc (userVotes u db.votes) with
           | some r => if r.option_id == data then [] else [⟨t, u, data⟩]
           | none => [⟨t, u, data⟩]) := by
  constructor
  · show update_message { db with votes := voteStep db.votes u data t } data = none
    have hfind : List.find? (fun o => o.id == data) db.options = none := by
      apply List.find?_eq_none.mpr
      intro o ho
      simpa using List.all_eq_true.mp h o ho
    simp only [update_message, hfind]
  · exact userVotes_voteStep_self db.votes u data t

theorem votebot_unknown_token_mutates_without_edit_witness :
    demoLunchDB.options.all (fun o => !(o.id == "zz")) = true
    ∧ ((button_handler demoLunchDB 5 "zz" 3).2 = none
      ∧ userVotes 5 (button_handler demoLunchDB 5 "zz" 3).1.votes
          = (match firstByIdAsc (userVotes 5 demoLunchDB.votes) with
             | some r => if r.option_id == "zz" then [] else [⟨3, 5, "zz"⟩]
             | none => [⟨3, 5, "zz"⟩])) :=
  ⟨by decide, votebot_unknown_token_mutates_without_edit demoLunchDB 5 "zz" 3 (by decide)⟩

/-! ### Claim theorems: rendering (C6) -/

theorem roundHalfEven_le_int (q : ℚ) (M : ℤ) (h : q ≤ (M : ℚ)) : roundHalfEven q ≤ M := by
  have hfM : ⌊q⌋ ≤ M := by
    have := Int.floor_le_floor h
    rwa [Int.floor_intCast] at this
  simp only [roundHalfEven]
  split_ifs with h1 h2 h3
  · exact hfM
  · rcases eq_or_lt_of_le hfM with heq | hlt
    · exfalso
      have hle : q - (⌊q⌋ : ℚ) ≤ 0 := by
        rw [heq]; linarith
      linarith
    · omega
  · exact hfM
  · have hr : q - (⌊q⌋ : ℚ) = 1 / 2 := le_antisymm (not_lt.mp h2) (not_lt.mp h1)
    rcases eq_or_lt_of_le hfM with heq | hlt
    · exfalso
      rw [heq] at hr
      linarith
    · omega

theorem roundHalfEven_nonneg (q : ℚ) (h : 0 ≤ q) : 0 ≤ roundHalfEven q := by
  have hf : 0 ≤ ⌊q⌋ := Int.floor_nonneg.mpr h
  simp only [roundHalfEven]
  split_ifs <;> omega

theorem fl64_nonneg (q : ℚ) : 0 ≤ fl64 q := by
  rw [fl64]
  split_ifs with h
  · exact le_refl 0
  · have hq : 0 < q := not_le.mp h
    have hN : 0 ≤ roundHalfEven (q / 2 ^ max (Int.log 2 q - 52) (-1074)) :=
      roundHalfEven_nonneg _ (by positivity)
    have hNq : (0 : ℚ) ≤ (roundHalfEven (q / 2 ^ max (Int.log 2 q - 52) (-1074)) : ℚ) := by
      exact_mod_cast hN
    exact mul_nonneg hNq (zpow_pos (by norm_num) _).le

/-- Rounding to the double grid cannot escape a bounding power of two
(within the exponent range): the key fact making the theorem's domain
free of overflow. -/
theorem fl64_le_zpow (q : ℚ) (k : ℤ) (h0 : 0 < q) (hq : q ≤ 2 ^ k) (hk : -1074 ≤ k) :
    fl64 q ≤ 2 ^ k := by
  rw [fl64, if_neg (not_le.mpr h0)]
  have hek : Int.log 2 q ≤ k := by
    have he : (2 : ℚ) ^ Int.log 2 q ≤ q := by
      have := Int.zpow_log_le_self (b := 2) (by norm_num) h0
      simpa using this
    exact (zpow_le_zpow_iff_right₀ (by norm_num : (1 : ℚ) < 2)).mp (he.trans hq)
  have hple : max (Int.log 2 q - 52) (-1074) ≤ k := max_le (by omega) hk
  have hppos : (0 : ℚ) < 2 ^ max (Int.log 2 q - 52) (-1074) := zpow_pos (by norm_num) _
  have hMq : q / 2 ^ max (Int.log 2 q - 52) (-1074)
      ≤ ((2 ^ (k - max (Int.log 2 q - 52) (-1074)).toNat : ℤ) : ℚ) := by
    rw [div_le_iff₀ hppos]
    push_cast
    rw [← zpow_natCast (2 : ℚ), Int.toNat_of_nonneg (by omega),
      ← zpow_add₀ (by norm_num : (2 : ℚ) ≠ 0)]
    have harith : k - max (Int.log 2 q - 52) (-1074) + max (Int.log 2 q - 52) (-1074) = k := by
      omega
    rw [harith]
    exact hq
  have hN := roundHalfEven_le_int _ _ hMq
  calc (roundHalfEven (q / 2 ^ max (Int.log 2 q - 52) (-1074)) : ℚ)
        * 2 ^ max (Int.log 2 q - 52) (-1074)
      ≤ ((2 ^ (k - max (Int.log 2 q - 52) (-1074)).toNat : ℤ) : ℚ)
        * 2 ^ max (Int.log 2 q - 52) (-1074) := by
        apply mul_le_mul_of_nonneg_right _ hppos.le
        exact_mod_cast hN
    _ = 2 ^ k := by
        push_cast
        rw [← zpow_natCast (2 : ℚ), Int.toNat_of_nonneg (by omega),
          ← zpow_add₀ (by norm_num : (2 : ℚ) ≠ 0)]
        congr 1
        omega

theorem one_lt_two_zpow_big : (1 : ℚ) < 2 ^ (1024 : ℤ) := by
  calc (1 : ℚ) = 2 ^ (0 : ℤ) := (zpow_zero 2).symm
    _ < 2 ^ (1024 : ℤ) := zpow_lt_zpow_right₀ (by norm_num) (by norm_num)

theorem generate_line_eq_spec (part : String) (vote total : Nat) (h : vote ≤ total) :
    generate_line part vote total = some (renderLine_spec part vote total) := by
  by_cases hv : vote = 0
  · subst hv; rfl
  · have hv' : (vote == 0) = false := by simpa using hv
    have ht : total ≠ 0 := by
      intro h0
      rw [h0] at h
      exact hv (Nat.le_zero.mp h)
    have hvq : (0 : ℚ) < (vote : ℚ) := by exact_mod_cast Nat.pos_of_ne_zero hv
    have htq : (0 : ℚ) < (total : ℚ) := by exact_mod_cast Nat.pos_of_ne_zero ht
    have hqpos : (0 : ℚ) < (vote : ℚ) / (total : ℚ) := div_pos hvq htq
    have hq1 : (vote : ℚ) / (total : ℚ) ≤ 2 ^ (0 : ℤ) := by
      rw [zpow_zero]
      exact (div_le_one htq).mpr (by exact_mod_cast h)
    have hd1le : fl64 ((vote : ℚ) / (total : ℚ)) ≤ 1 := by
      have := fl64_le_zpow _ 0 hqpos hq1 (by norm_num)
      rwa [zpow_zero] at this
    have hd1lt : fl64 ((vote : ℚ) / (total : ℚ)) < 2 ^ (1024 : ℤ) :=
      lt_of_le_of_lt hd1le one_lt_two_zpow_big
    have hdiv : div64 vote total = some (fl64 ((vote : ℚ) / (total : ℚ))) := by
      rw [div64, if_neg ht, if_pos hd1lt]
    have hd3lt : fl64 (fl64 ((vote : ℚ) / (total : ℚ)) * 15) < 2 ^ (1024 : ℤ) := by
      rcases eq_or_lt_of_le (fl64_nonneg ((vote : ℚ) / (total : ℚ))) with hz | hpos
      · rw [← hz, zero_mul, fl64, if_pos (le_refl 0)]
        exact zpow_pos (by norm_num) _
      · have h15 : fl64 ((vote : ℚ) / (total : ℚ)) * 15 ≤ 2 ^ (4 : ℤ) := by
          calc fl64 ((vote : ℚ) / (total : ℚ)) * 15 ≤ 1 * 15 :=
                mul_le_mul_of_nonneg_right hd1le (by norm_num)
            _ ≤ 2 ^ (4 : ℤ) := by norm_num
        calc fl64 (fl64 ((vote : ℚ) / (total : ℚ)) * 15)
            ≤ 2 ^ (4 : ℤ) := fl64_le_zpow _ 4 (by positivity) h15 (by norm_num)
          _ < 2 ^ (1024 : ℤ) := zpow_lt_zpow_right₀ (by norm_num) (by norm_num)
    simp only [generate_line, renderLine_spec, hv', Bool.false_eq_true, if_false,
      hdiv, hd3lt, if_true]

theorem optionJoin_map_some {α β : Type} (f : α → Option β) (g : α → β) (l : List α)
    (h : ∀ a ∈ l, f a = some (g a)) :
    optionJoin (l.map f) = some (l.map g) := by
  induction l with
  | nil => rfl
  | cons x xs ih =>
      rw [List.map_cons, List.map_cons, h x (List.mem_cons_self x xs)]
      show (optionJoin (xs.map f)).map (fun l => g x :: l) = some (g x :: xs.map g)
      rw [ih (fun a ha => h a (List.mem_cons_of_mem x ha))]
      rfl

/-- C6: rendering a poll whose total is the sum of its per-option counts
never divides by zero (the zero-vote branch, which never divides, is taken
whenever the count is zero, and a positive count forces a positive total),
and each rendered line has exactly the shape the spec states: the neutral
marker line for a zero count, otherwise `"<title> - <count>"`, a bar of
`round(count/total * 15)` glyphs and the percentage with zero decimal
places. -/
theorem votebot_render_message_never_divides_by_zero (question : String)
    (parts : List String) (votes : List Nat) :
    generate_message question parts (some votes)
      = some ("*" ++ question ++ "*\n\n" ++ String.intercalate "\n\n"
          ((parts.zip votes).map (fun pv => renderLine_spec pv.1 pv.2 votes.sum))) := by
  have hjoin : optionJoin ((parts.zip votes).map (fun pv => generate_line pv.1 pv.2 votes.sum))
      = some ((parts.zip votes).map (fun pv => renderLine_spec pv.1 pv.2 votes.sum)) := by
    apply optionJoin_map_some
    intro pv hpv
    apply generate_line_eq_spec
    exact List.single_le_sum (fun x _ => Nat.zero_le x) _ (List.of_mem_zip hpv).2
  simp only [generate_message, Option.getD_some, hjoin]

/-! ### Claim theorems: the publish path (C4, C5, C9) -/

/-- C4 (counterexample): publishing the title-only query `"Announcement"`
does create a Poll row (the claim says no Poll/Option/Vote rows are
created). -/
theorem votebot_title_only_creates_poll_row :
    chosen_result_handler emptyDB "Announcement" "42" 7
      = some ⟨[⟨"42", "Announcement", 7⟩], [], []⟩
    ∧ (chosen_result_handler emptyDB "Announcement" "42" 7).map (fun db => db.polls)
        ≠ some [] := by
  constructor <;> decide

/-- C4 (amended): for a published query parsing to a bare title, the
publish path creates exactly one Poll row (carrying the title) and no
Option or Vote rows, and the inline response is the plain announcement
article echoing the title with no poll card. -/
theorem votebot_title_only_publish (db : DB) (q qid rid : String) (uid : Int)
    (title : String) (hp : shlexSplit q = some [title]) :
    chosen_result_handler db q rid uid
        = some { db with polls := db.polls ++ [⟨rid, title, uid⟩] }
    ∧ inline_handler q qid = some (InlineAnswer.plain qid title ("*" ++ title ++ "*")) := by
  have hq : q ≠ "" := by
    intro he
    rw [he] at hp
    have hcontra := (show shlexSplit "" = some [] from rfl).symm.trans hp
    simp at hcontra
  constructor
  · simp [chosen_result_handler, hp, deduplicate, dedupAux]
  · have hne : (q == "") = false := by simpa using hq
    simp [inline_handler, hne, hp]

theorem votebot_title_only_publish_witness :
    shlexSplit "Announcement" = some ["Announcement"]
    ∧ (chosen_result_handler emptyDB "Announcement" "42" 7
          = some { emptyDB with polls := emptyDB.polls ++ [⟨"42", "Announcement", 7⟩] }
      ∧ inline_handler "Announcement" "q1"
          = some (InlineAnswer.plain "q1" "Announcement" ("*" ++ "Announcement" ++ "*"))) :=
  ⟨by decide, votebot_title_only_publish emptyDB "Announcement" "q1" "42" 7 "Announcement" (by decide)⟩

/-- C5 (counterexample): publishing `"Lunch Pizza"` with poll id `"1"`
stores the option id `"1" ++ sha256hex "Pizza" [:32]`, which differs from
the claim's formula `sha256hex ("1" ++ "Pizza") [:32]` (the latter is 32
characters and does not start with the poll id). -/
theorem votebot_option_id_differs_from_claim_formula :
    chosen_result_handler emptyDB "Lunch Pizza" "1" 9 = some demoLunchDB
    ∧ demoLunchDB.options.map (fun o => o.id) = ["1f12958816a49adfa2c6c8de8dd2144c1"]
    ∧ specOptionId "1" "Pizza" ≠ "1f12958816a49adfa2c6c8de8dd2144c1" := by
  refine ⟨?_, ?_, ?_⟩ <;> decide

/-- C5 (amended): every Option row the publish path creates has id
`pollId ++ fingerprint(title)[0:32]` — the poll id concatenated with the
truncated SHA-256 hex digest of the option title alone (not the digest of
the concatenation). -/
theorem votebot_option_id_is_pollid_concat_hash (db : DB) (q rid : String) (uid : Int)
    (db' : DB) (h : chosen_result_handler db q rid uid = some db') :
    ∀ o ∈ db'.options, o ∈ db.options ∨ o.id = rid ++ (sha256hex o.title).take 32 := by
  intro o ho
  rw [chosen_result_handler] at h
  cases hs : shlexSplit q with
  | none => rw [hs] at h; simp at h
  | some parts =>
      rw [hs] at h
      cases parts with
      | nil => simp at h
      | cons title rest =>
          have h2 := Option.some.inj h
          rw [← h2] at ho
          have ho2 : o ∈ db.options ++ (deduplicate rest).map
              (fun part => OptionRow.mk (rid ++ (sha256hex part).take 32) part rid) := ho
          rcases List.mem_append.mp ho2 with hl | hr
          · exact Or.inl hl
          · right
            rcases List.mem_map.mp hr with ⟨part, _, rfl⟩
            rfl

theorem votebot_option_id_is_pollid_concat_hash_witness :
    chosen_result_handler emptyDB "Lunch Pizza" "1" 9 = some demoLunchDB
    ∧ ((⟨"1f12958816a49adfa2c6c8de8dd2144c1", "Pizza", "1"⟩ : OptionRow) ∈ emptyDB.options
       ∨ (("1f12958816a49adfa2c6c8de8dd2144c1" : String)
            = "1" ++ (sha256hex "Pizza").take 32)) :=
  ⟨by decide,
   votebot_option_id_is_pollid_concat_hash emptyDB "Lunch Pizza" "1" 9 demoLunchDB
     (by decide) ⟨"1f12958816a49adfa2c6c8de8dd2144c1", "Pizza", "1"⟩ (by decide)⟩

/-- C9: a query that is empty or has unbalanced quoting is a no-op on both
paths: the inline path answers nothing (explicit early return resp.
`except ValueError`), and the publish path creates no rows (its uncaught
`IndexError` resp. `ValueError` is raised before any row is added and is
only logged by the dispatcher, so nothing is surfaced to the user). -/
theorem votebot_malformed_query_noop (q qid rid : String) (db : DB) (uid : Int)
    (h : q = "" ∨ shlexSplit q = none) :
    inline_handler q qid = none ∧ chosen_result_handler db q rid uid = none := by
  rcases h with rfl | hq
  · exact ⟨rfl, rfl⟩
  · have hne : (q == "") = false := by
      cases hqe : q == ""
      · rfl
      · exfalso
        have : q = "" := by simpa using hqe
        rw [this] at hq
        exact absurd hq (by decide)
    constructor
    · rw [inline_handler, if_neg (by simp [hne]), hq]
    · rw [chosen_result_handler, hq]

theorem votebot_malformed_query_noop_witness :
    (("Lunch \"Pizza" : String) = "" ∨ shlexSplit "Lunch \"Pizza" = none)
    ∧ (inline_handler "Lunch \"Pizza" "7" = none
      ∧ chosen_result_handler emptyDB "Lunch \"Pizza" "8" 3 = none) :=
  ⟨Or.inr (by decide),
   votebot_malformed_query_noop "Lunch \"Pizza" "7" "8" emptyDB 3 (Or.inr (by decide))⟩

end Votebot
